import Mathlib

/-!
Verification of the pdfWordRunner RSVP reader (`src/parser.py`).

The embedding below models, from the source:
* the page-image LRU cache built on an `OrderedDict` (`cache_put`, the plain
  `pages_cache.get` lookup inside `render_page`, the eviction loop);
* `render_page`'s cache/render logic, including the blank-placeholder fallback
  when the rasterizer raises;
* the presentation scheduler closures (`display_next_word`, `pause_play`,
  `move_left`, `move_right`, `goto_next_page`) over the mutable state
  `word_index`, `paused`, `word_id`, `current_page_no`, in two models:
  `Sched`, which abstracts the timer state to a Boolean (whether the
  advancement timer whose handle sits in `word_id` is still scheduled),
  adequate for claims independent of timer multiplicity, and `TSched`,
  which tracks `tk.after` handles, the `word_id` variable, and the list of
  pending timers faithfully — including the startup
  `root.after(100, display_next_word)` whose handle is never stored in
  `word_id`;
* `load_pdf_index`'s page-range normalization/validation and per-page word
  extraction (a page whose `extract_words` raises contributes no words), and
  the startup path of `main` (page-arg normalization, `sys.exit(1)` on a
  `RuntimeError` from loading or on an empty word list, `delay_ms`).

The external rasterizer and word extractor are parameters (`Option`-valued
functions: `none` models a raised exception).
-/

namespace PdfWordRunner

/-! ## Words -/

/-- A raw word as returned by `page.extract_words()` (text plus bounding box). -/
structure RawWord where
  text : String
  x0 : ℚ
  top : ℚ
  x1 : ℚ
  bottom : ℚ
deriving DecidableEq

/-- An entry of the `words` list built by `load_pdf_index`. -/
structure Word where
  text : String
  page : Nat
  left : ℚ
  top : ℚ
  right : ℚ
  bottom : ℚ
deriving DecidableEq

/-! ## Page-image LRU cache (`pages_cache : OrderedDict`)

The `OrderedDict` is modelled as an association list, front = oldest
(least recently used), back = newest; keys are unique. -/

/-- The cache: association list from page number to cached value,
in recency order (front = oldest). -/
abbrev Cache (α : Type) := List (Nat × α)

/-- The keys of the cache, in recency order. -/
def keys {α : Type} (c : Cache α) : List Nat := c.map (fun e => e.1)

/-- `pages_cache.get(page_no)`: plain dictionary lookup, no recency update
(this is what `render_page` uses under `pages_lock`). -/
def cache_get {α : Type} (c : Cache α) (pno : Nat) : Option α :=
  (c.find? (fun e => e.1 == pno)).map (fun e => e.2)

/-- `pages_cache.move_to_end(pno)`: reposition the entry with key `pno` at the
most-recently-used end.  `OrderedDict` keys are unique, so filtering out every
entry with that key removes exactly the one entry. -/
def move_to_end {α : Type} (c : Cache α) (pno : Nat) : Cache α :=
  match c.find? (fun e => e.1 == pno) with
  | none => c
  | some e => c.filter (fun x => !(x.1 == pno)) ++ [e]

/-- `while len(pages_cache) > args.cache_size: pages_cache.popitem(last=False)`:
drop oldest entries while the size exceeds the capacity. -/
def evictOldest {α : Type} (cap : Nat) : Cache α → Cache α
  | [] => []
  | x :: xs => if cap < (x :: xs).length then evictOldest cap xs else x :: xs

/-- `cache_put(pno, pil)`: if the key is already present, move it to the
recently-used end (keeping the stored value) and return; otherwise insert at
the end and evict oldest entries while over capacity. -/
def cache_put {α : Type} (cap : Nat) (c : Cache α) (pno : Nat) (pil : α) : Cache α :=
  if c.any (fun e => e.1 == pno) then move_to_end c pno
  else evictOldest cap (c ++ [(pno, pil)])

/-! ## Rendering (`render_page`'s cache logic) -/

/-- A rendered page image: pixel dimensions plus whether it is the blank
fallback produced when rasterization failed. -/
structure Img where
  w : Nat
  h : Nat
  blank : Bool
deriving DecidableEq

/-- Python `int()` on a nonnegative-or-negative rational: truncation toward
zero. -/
def intTrunc (q : ℚ) : Int :=
  if q < 0 then -Int.floor (-q) else Int.floor q

/-- The fallback image of `render_page`:
`Image.new("RGB", (max(1, int(w*dpi/72)), max(1, int(h*dpi/72))), "white")`
sized from the page's nominal dimensions at the configured resolution. -/
def blankImage (pageW pageH dpi : ℚ) : Img :=
  { w := max 1 (intTrunc (pageW * dpi / 72)).toNat
    h := max 1 (intTrunc (pageH * dpi / 72)).toNat
    blank := true }

/-- The document/renderer environment: page count, nominal page dimensions in
points, the external rasterizer (`none` models a raised exception), and the
configured resolution (`render_dpi`). -/
structure RenderEnv where
  numPages : Nat
  pageW : Nat → ℚ
  pageH : Nat → ℚ
  render : Nat → Option Img
  dpi : ℚ

/-- The cache-relevant behaviour of `render_page(page_no)`: returns the new
cache, the image used for display (`none` when the early out-of-range return
fires), and whether the rasterizer (`page.to_image`) was invoked. -/
def render_page (env : RenderEnv) (cap : Nat) (c : Cache Img) (page_no : Nat) :
    Cache Img × Option Img × Bool :=
  if env.numPages ≤ page_no then (c, none, false)
  else
    match cache_get c page_no with
    | some pil => (c, some pil, false)
    | none =>
      match env.render page_no with
      | some pil => (cache_put cap c page_no pil, some pil, true)
      | none =>
        let pil := blankImage (env.pageW page_no) (env.pageH page_no) env.dpi
        (cache_put cap c page_no pil, some pil, true)

/-! ## Presentation scheduler -/

/-- The mutable closure state of `main` that the scheduler operations touch:
`word_index`, `paused`, whether the advancement timer whose handle was last
stored in `word_id` is still scheduled, and `current_page_no`.  Timer
multiplicity — in particular the startup timer whose handle is never stored
in `word_id` — is modelled by `TSched` below. -/
structure Sched where
  wordIndex : Nat
  paused : Bool
  timer : Bool
  currentPage : Option Nat
deriving DecidableEq

/-- `update_label_for_index()`: when the index is in range, display the word,
which (via `highlight_current_word`) renders its page if it differs from the
current one; out of range, only the label is cleared. -/
def update_label_for_index (words : List Word) (s : Sched) : Sched :=
  match words[s.wordIndex]? with
  | some w => { s with currentPage := some w.page }
  | none => s

/-- `display_next_word()`: a stale firing while paused clears `word_id`;
otherwise, if the index is below `len(words)`, display the word (rendering its
page when it changed), increment the index and schedule the next firing;
at or past the end, clear `word_id`. -/
def display_next_word (words : List Word) (s : Sched) : Sched :=
  if s.paused then { s with timer := false }
  else
    match words[s.wordIndex]? with
    | some w =>
      { s with currentPage := some w.page, wordIndex := s.wordIndex + 1, timer := true }
    | none => { s with timer := false }

/-- `pause_play()`: toggle `paused`; when now paused, cancel the pending timer;
when now playing, call `display_next_word()` directly. -/
def pause_play (words : List Word) (s : Sched) : Sched :=
  let s1 : Sched := { s with paused := !s.paused }
  if s1.paused then { s1 with timer := false }
  else display_next_word words s1

/-- `move_left()`: only honored while paused; `word_index = max(word_index-1, 0)`
(that is Nat subtraction), then update the display. -/
def move_left (words : List Word) (s : Sched) : Sched :=
  if !s.paused then s
  else update_label_for_index words { s with wordIndex := s.wordIndex - 1 }

/-- `move_right()`: only honored while paused;
`word_index = min(word_index+1, len(words)-1)`, then update the display.
(`words` is nonempty in every run, since `main` exits on an empty word list.) -/
def move_right (words : List Word) (s : Sched) : Sched :=
  if !s.paused then s
  else update_label_for_index words
    { s with wordIndex := min (s.wordIndex + 1) (words.length - 1) }

/-- The target page computed at the top of `goto_next_page(step)`:
`0` (or the last page) when no page is current, otherwise
`max(0, min(current_page_no + step, len(pdf.pages) - 1))`. -/
def target_page (numPages : Nat) (currentPage : Option Nat) (step : Int) : Nat :=
  match currentPage with
  | none => if 0 ≤ step then 0 else (max 0 ((numPages : Int) - 1)).toNat
  | some cp => (max 0 (min ((cp : Int) + step) ((numPages : Int) - 1))).toNat

/-- The `for i, w in enumerate(words): if w["page"] == next_page: found = i; break`
loop of `goto_next_page`. -/
def find_first_word_on_page (ws : List Word) (pno : Nat) : Option Nat :=
  match ws with
  | [] => none
  | w :: rest =>
    if w.page = pno then some 0
    else (find_first_word_on_page rest pno).map (fun i => i + 1)

/-- `goto_next_page(step)`: compute the clamped target page; return unchanged
when it equals the current page or no word lies on it; otherwise cancel the
pending timer, jump the index to the first word of that page, render it, and
reschedule the advancement timer when not paused. -/
def goto_next_page (words : List Word) (numPages : Nat) (step : Int) (s : Sched) : Sched :=
  let next_page := target_page numPages s.currentPage step
  if s.currentPage = some next_page then s
  else
    match find_first_word_on_page words next_page with
    | none => s
    | some found =>
      let s1 : Sched :=
        { s with timer := false, wordIndex := found, currentPage := some next_page }
      if s.paused then s1 else { s1 with timer := true }

/-! ## Timer-faithful scheduler model

`Sched` abstracts the timer state to a single Boolean — whether the
advancement timer whose handle sits in `word_id` is still scheduled — which
is adequate for claims that do not depend on timer multiplicity.  The timers
themselves are modelled faithfully here: `tk.after` hands back a fresh
handle, `word_id` is the closure variable holding the last stored handle,
and the startup call `root.after(100, display_next_word)` discards its
handle (the code never assigns it to `word_id`), so that timer can neither
be cancelled nor distinguished from the `word_id` chain. -/

/-- The scheduler state with faithful timer bookkeeping: `pending` is the
list of handles of scheduled `display_next_word` timers in schedule order,
`wordId` is the `word_id` closure variable, `nextId` the fresh-handle
supply of `tk.after`. -/
structure TSched where
  wordIndex : Nat
  paused : Bool
  pending : List Nat
  wordId : Option Nat
  nextId : Nat
  currentPage : Option Nat
deriving DecidableEq

/-- `word_id = root.after(delay_ms, display_next_word)`: schedule a new
advancement timer and store its handle in `word_id`. -/
def tafter (s : TSched) : TSched :=
  { s with
    pending := s.pending ++ [s.nextId]
    wordId := some s.nextId
    nextId := s.nextId + 1 }

/-- `root.after(100, display_next_word)` at startup: schedule an advancement
timer whose handle is not stored anywhere. -/
def tafter_startup (s : TSched) : TSched :=
  { s with pending := s.pending ++ [s.nextId], nextId := s.nextId + 1 }

/-- `if word_id is not None: root.after_cancel(word_id)` without resetting
`word_id`, as in `goto_next_page`. -/
def tcancel (s : TSched) : TSched :=
  match s.wordId with
  | none => s
  | some h => { s with pending := s.pending.erase h }

/-- The body of `display_next_word()` over the timer-faithful state: while
paused clear `word_id`; otherwise display the word at the index (below
`len(words)`), increment, and schedule the next timer; at or past the end
clear `word_id`. -/
def tdisplay (words : List Word) (s : TSched) : TSched :=
  if s.paused then { s with wordId := none }
  else
    match words[s.wordIndex]? with
    | some w =>
      tafter { s with currentPage := some w.page, wordIndex := s.wordIndex + 1 }
    | none => { s with wordId := none }

/-- The event loop firing the oldest pending timer: the timer is consumed
and its callback `display_next_word` runs. -/
def tfire (words : List Word) (s : TSched) : TSched :=
  match s.pending with
  | [] => s
  | _ :: rest => tdisplay words { s with pending := rest }

/-- `pause_play()` over the timer-faithful state: toggle `paused`; when now
paused, cancel the `word_id` timer if any and clear `word_id`; when now
playing, run `display_next_word()` directly. -/
def tpause_play (words : List Word) (s : TSched) : TSched :=
  let s1 : TSched := { s with paused := !s.paused }
  if s1.paused then
    match s1.wordId with
    | none => s1
    | some h => { s1 with pending := s1.pending.erase h, wordId := none }
  else tdisplay words s1

/-- `goto_next_page(step)` over the timer-faithful state: same control flow
as `goto_next_page`, with the cancel acting on the `word_id` handle only. -/
def tgoto (words : List Word) (numPages : Nat) (step : Int) (s : TSched) : TSched :=
  let next_page := target_page numPages s.currentPage step
  if s.currentPage = some next_page then s
  else
    match find_first_word_on_page words next_page with
    | none => s
    | some found =>
      let s1 := tcancel s
      let s2 : TSched := { s1 with wordIndex := found, currentPage := some next_page }
      if s.paused then s2 else tafter s2

/-- The timer bookkeeping that the code maintains outside the startup
window: at most one advancement timer pending, every pending handle is the
one stored in `word_id`, and a timer is pending only while Playing with
`word_index ≤ len(words)`. -/
abbrev tracked (n : Nat) (s : TSched) : Prop :=
  s.pending.length ≤ 1
  ∧ (∀ h ∈ s.pending, s.wordId = some h)
  ∧ (∀ h ∈ s.pending, s.paused = false ∧ s.wordIndex ≤ n)

/-! ## Startup: delay, page-range normalization, loading -/

/-- `delay_ms = 60000 // args.wpm` (Python floor division on positive ints). -/
def delay_ms (wpm : Nat) : Nat := 60000 / wpm

/-- `main`'s normalization of the 1-indexed `--start-page`/`--end-page`
arguments into 0-based `start_idx`/`end_idx` (`-1` meaning "last page"). -/
def normalize_pages (raw_start raw_end : Int) : Int × Int :=
  let rs := if raw_start < 1 then 1 else raw_start
  (rs - 1, if raw_end < 1 then -1 else raw_end - 1)

/-- The words contributed by page `i` in `load_pdf_index`'s loop: when
`page.extract_words()` raises (`extract i = none`) the page contributes the
empty list, otherwise each raw word becomes a `Word` tagged with the page. -/
def pageContrib (extract : Nat → Option (List RawWord)) (i : Nat) : List Word :=
  ((extract i).getD []).map (fun w =>
    { text := w.text, page := i, left := w.x0, top := w.top,
      right := w.x1, bottom := w.bottom })

/-- `load_pdf_index` after the PDF is open: normalize `end_idx` (negative or
past the last page means the last page), clamp `start_idx` at `0`, error when
the start is out of range or after the end, and otherwise collect the words of
pages `start_idx .. end_idx`. -/
def load_pdf_index (extract : Nat → Option (List RawWord)) (total_pages : Nat)
    (start_idx end_idx : Int) : Except String (List Word) :=
  let e := if end_idx < 0 ∨ (total_pages : Int) ≤ end_idx
    then (total_pages : Int) - 1 else end_idx
  let s := if start_idx < 0 then 0 else start_idx
  if (total_pages : Int) ≤ s then Except.error "start_page is out of range"
  else if e < s then Except.error "start_page is after end_page"
  else Except.ok ((List.range' s.toNat (e.toNat - s.toNat + 1)).flatMap (pageContrib extract))

/-- `load_pdf_index` as `main` calls it, after normalizing the raw 1-indexed
page arguments. -/
def startup_load (extract : Nat → Option (List RawWord)) (total_pages : Nat)
    (raw_start raw_end : Int) : Except String (List Word) :=
  let p := normalize_pages raw_start raw_end
  load_pdf_index extract total_pages p.1 p.2

/-- The observable outcome of `main`'s startup path. -/
inductive StartupResult where
  | exited : Nat → StartupResult
  | running : List Word → StartupResult
deriving DecidableEq

/-- `main`'s startup: `pdfplumber.open` failing makes `load_pdf_index` raise
(modelled by `openResult = error`), a `RuntimeError` from loading is caught and
the process exits with status 1, and an empty word list also exits with
status 1; otherwise the UI starts with the loaded words. -/
def startup (openResult : Except String Nat) (extract : Nat → Option (List RawWord))
    (raw_start raw_end : Int) : StartupResult :=
  match openResult with
  | Except.error _ => StartupResult.exited 1
  | Except.ok total_pages =>
    match startup_load extract total_pages raw_start raw_end with
    | Except.error _ => StartupResult.exited 1
    | Except.ok words =>
      if words.isEmpty then StartupResult.exited 1 else StartupResult.running words

/-! ## Cache lemmas -/

theorem evictOldest_eq_drop {α : Type} (cap : Nat) (l : Cache α) :
    evictOldest cap l = l.drop (l.length - cap) := by
  induction l with
  | nil => simp [evictOldest]
  | cons x xs ih =>
    rw [evictOldest]
    by_cases h : cap < (x :: xs).length
    · rw [if_pos h, ih]
      have hx : (x :: xs).length - cap = (xs.length - cap) + 1 := by
        simp only [List.length_cons] at h ⊢; omega
      rw [hx, List.drop_succ_cons]
    · rw [if_neg h]
      have hx : (x :: xs).length - cap = 0 := by
        simp only [List.length_cons, not_lt] at h ⊢; omega
      rw [hx, List.drop_zero]

theorem find?_key_eq_some {α : Type} {c : Cache α} {k : Nat} {v : α}
    (hnd : (keys c).Nodup) (hmem : (k, v) ∈ c) :
    c.find? (fun e => e.1 == k) = some (k, v) := by
  induction c with
  | nil => cases hmem
  | cons x xs ih =>
    have hnd2 : x.1 ∉ keys xs ∧ (keys xs).Nodup := by
      simpa [keys] using hnd
    rcases List.mem_cons.mp hmem with h | h
    · subst h
      exact List.find?_cons_of_pos _ (by simp)
    · have hx : (x.1 == k) = false := by
        have hk : k ∈ keys xs := List.mem_map.mpr ⟨(k, v), h, rfl⟩
        simp only [beq_eq_false_iff_ne, ne_eq]
        intro he; exact hnd2.1 (he ▸ hk)
      rw [List.find?_cons_of_neg _ (by simp [hx])]
      exact ih hnd2.2 h

theorem move_to_end_eq {α : Type} {c : Cache α} {k : Nat} {v : α}
    (hnd : (keys c).Nodup) (hmem : (k, v) ∈ c) :
    move_to_end c k = c.filter (fun x => !(x.1 == k)) ++ [(k, v)] := by
  unfold move_to_end
  rw [find?_key_eq_some hnd hmem]

theorem filter_ne_key_of_not_mem {α : Type} {c : Cache α} {k : Nat}
    (h : k ∉ keys c) : c.filter (fun x => !(x.1 == k)) = c := by
  induction c with
  | nil => rfl
  | cons x xs ih =>
    have hx : x.1 ≠ k := by
      intro he; exact h (by simp [keys, he])
    have hxs : k ∉ keys xs := by
      intro hm; exact h (by simp [keys]; right; simpa [keys] using hm)
    rw [List.filter_cons_of_pos (by simpa using hx), ih hxs]

theorem length_filter_ne_key {α : Type} {c : Cache α} {k : Nat} {v : α}
    (hnd : (keys c).Nodup) (hmem : (k, v) ∈ c) :
    (c.filter (fun x => !(x.1 == k))).length = c.length - 1 := by
  induction c with
  | nil => cases hmem
  | cons x xs ih =>
    have hnd2 : x.1 ∉ keys xs ∧ (keys xs).Nodup := by
      simpa [keys] using hnd
    by_cases hx : x.1 = k
    · have hxs : k ∉ keys xs := hx ▸ hnd2.1
      rw [List.filter_cons_of_neg (by simpa using hx), filter_ne_key_of_not_mem hxs]
      simp
    · have hmem2 : (k, v) ∈ xs := by
        rcases List.mem_cons.mp hmem with h | h
        · exact absurd (congrArg Prod.fst h).symm hx
        · exact h
      have hlen : 1 ≤ xs.length := List.length_pos.mpr (List.ne_nil_of_mem hmem2)
      rw [List.filter_cons_of_pos (by simpa using hx), List.length_cons,
        ih hnd2.2 hmem2]
      simp only [List.length_cons]
      omega

theorem cache_get_append_cons {α : Type} (A : Cache α) (k : Nat) (v : α) (rest : Cache α)
    (h : ∀ e ∈ A, e.1 ≠ k) :
    cache_get (A ++ (k, v) :: rest) k = some v := by
  induction A with
  | nil => simp [cache_get]
  | cons x xs ih =>
    have hx : (x.1 == k) = false := by
      simpa using h x (by simp)
    unfold cache_get at ih ⊢
    rw [List.cons_append, List.find?_cons_of_neg _ (by simp [hx])]
    exact ih (fun e he => h e (by simp [he]))

theorem mem_keys_of_mem_filter {α : Type} {c : Cache α} {p : (Nat × α) → Bool} {q : Nat}
    (h : q ∈ keys (c.filter p)) : q ∈ keys c := by
  rcases List.mem_map.mp h with ⟨e, he, rfl⟩
  exact List.mem_map.mpr ⟨e, (List.mem_filter.mp he).1, rfl⟩

/-- Repeatedly inserting pages into an initially empty cache through
`cache_put`, the value of page `p` being `v p`. -/
def cache_put_all {α : Type} (cap : Nat) (v : Nat → α) (ps : List Nat) : Cache α :=
  ps.foldl (fun c p => cache_put cap c p (v p)) []

theorem drop_append_singleton {β : Type} (n : Nat) (l : List β) (b : β)
    (h : n ≤ l.length) : (l ++ [b]).drop n = l.drop n ++ [b] := by
  rw [List.drop_append_eq_append_drop]
  have h0 : n - l.length = 0 := by omega
  rw [h0, List.drop_zero]

theorem cache_put_fresh {α : Type} (cap : Nat) (v : Nat → α) (seen : List Nat) (p : Nat)
    (hcap : 1 ≤ cap) (hp : p ∉ seen) :
    cache_put cap ((seen.drop (seen.length - cap)).map (fun q => (q, v q))) p (v p)
      = ((seen ++ [p]).drop ((seen ++ [p]).length - cap)).map (fun q => (q, v q)) := by
  have hany : ((seen.drop (seen.length - cap)).map (fun q => (q, v q))).any
      (fun e => e.1 == p) = false := by
    rw [List.any_eq_false]
    rintro e he
    rcases List.mem_map.mp he with ⟨q, hq, rfl⟩
    have hqs : q ∈ seen := List.mem_of_mem_drop hq
    have hqp : q ≠ p := fun he => hp (he ▸ hqs)
    simpa using hqp
  have hsing : [(p, v p)] = List.map (fun q => (q, v q)) [p] := rfl
  rw [cache_put, if_neg (by rw [hany]; exact Bool.false_ne_true), hsing,
    ← List.map_append, evictOldest_eq_drop, ← List.map_drop]
  congr 1
  simp only [List.length_map, List.length_append, List.length_drop, List.length_cons,
    List.length_nil]
  by_cases hc : seen.length < cap
  · have h1 : seen.length - cap = 0 := by omega
    rw [h1]
    have h2 : seen.length - 0 + (0 + 1) - cap = 0 := by omega
    have h3 : seen.length + (0 + 1) - cap = 0 := by omega
    rw [h2, h3, List.drop_zero, List.drop_zero, List.drop_zero]
  · have h1 : seen.length - (seen.length - cap) + (0 + 1) - cap = 1 := by omega
    have h3 : seen.length + (0 + 1) - cap = (seen.length - cap) + 1 := by omega
    rw [h1, h3]
    have h5 : (1 : Nat) ≤ (seen.drop (seen.length - cap)).length := by
      simp only [List.length_drop]; omega
    have h6 : (seen.length - cap) + 1 ≤ seen.length := by omega
    rw [drop_append_singleton 1 _ p h5, drop_append_singleton _ seen p h6,
      List.drop_drop]

theorem cache_put_all_go {α : Type} (cap : Nat) (v : Nat → α) (hcap : 1 ≤ cap) :
    ∀ (ps seen : List Nat), (seen ++ ps).Nodup →
      ps.foldl (fun c p => cache_put cap c p (v p))
          ((seen.drop (seen.length - cap)).map (fun q => (q, v q)))
        = ((seen ++ ps).drop ((seen ++ ps).length - cap)).map (fun q => (q, v q))
  | [], seen, _ => by simp
  | p :: ps, seen, hnd => by
    have hp : p ∉ seen := by
      intro hmem
      have : ¬ (seen ++ p :: ps).Nodup := by
        intro hn
        have := List.disjoint_of_nodup_append hn
        exact this hmem (by simp)
      exact this hnd
    have hnd2 : ((seen ++ [p]) ++ ps).Nodup := by
      rw [List.append_assoc, List.singleton_append]
      exact hnd
    rw [List.foldl_cons, cache_put_fresh cap v seen p hcap hp,
      cache_put_all_go cap v hcap ps (seen ++ [p]) hnd2,
      List.append_assoc, List.singleton_append]

/-- Inserting a duplicate-free list of pages into the empty cache retains
exactly the most recent `cap` of them, in order, with their values. -/
theorem cache_put_all_eq {α : Type} (cap : Nat) (v : Nat → α) (ps : List Nat)
    (hcap : 1 ≤ cap) (hnd : ps.Nodup) :
    cache_put_all cap v ps
      = (ps.drop (ps.length - cap)).map (fun q => (q, v q)) := by
  have h := cache_put_all_go cap v hcap ps [] (by simpa using hnd)
  simpa [cache_put_all] using h

/-! ## Scheduler lemmas -/

theorem update_label_wordIndex (words : List Word) (s : Sched) :
    (update_label_for_index words s).wordIndex = s.wordIndex := by
  unfold update_label_for_index
  cases words[s.wordIndex]? <;> rfl

theorem find_first_word_on_page_eq_none {ws : List Word} {pno : Nat}
    (h : ∀ w ∈ ws, w.page ≠ pno) : find_first_word_on_page ws pno = none := by
  induction ws with
  | nil => rfl
  | cons w rest ih =>
    rw [find_first_word_on_page, if_neg (h w (by simp)),
      ih (fun w2 hw2 => h w2 (by simp [hw2]))]
    rfl

theorem find_first_word_on_page_lt_length {ws : List Word} {pno i : Nat}
    (h : find_first_word_on_page ws pno = some i) : i < ws.length := by
  induction ws generalizing i with
  | nil => simp [find_first_word_on_page] at h
  | cons w rest ih =>
    rw [find_first_word_on_page] at h
    by_cases hw : w.page = pno
    · rw [if_pos hw] at h
      cases h
      simp
    · rw [if_neg hw] at h
      cases ho : find_first_word_on_page rest pno with
      | none => rw [ho] at h; cases h
      | some j =>
        rw [ho] at h
        have hj : j + 1 = i := by simpa using h
        have := ih ho
        simp only [List.length_cons]
        omega

/-- The invariant as the specification claims it: a timer is pending iff
Playing and `word_index < len(words)`. -/
abbrev pending_iff_playing_not_end (n : Nat) (s : Sched) : Prop :=
  s.timer = (!s.paused && decide (s.wordIndex < n))

/-! ## Concrete fixtures -/

/-- A one-word document (the word lies on page 0). -/
def wordA : Word := { text := "alpha", page := 0, left := 0, top := 0, right := 1, bottom := 1 }

/-- Word list of the one-word document. -/
def wordsOne : List Word := [wordA]

/-- Playing at index 0 with the advancement timer pending (the state right
after `root.after(100, display_next_word)` at startup). -/
def schedPlaying0 : Sched :=
  { wordIndex := 0, paused := false, timer := true, currentPage := some 0 }

/-- Paused at the terminal index of the one-word document (the state after the
last word was displayed, the final timer fired, and the user pressed space). -/
def schedPausedEnd : Sched :=
  { wordIndex := 1, paused := true, timer := false, currentPage := some 0 }

/-- The timer-faithful state right after startup in play mode: the
`root.after(100, display_next_word)` timer (handle 0) is pending but its
handle was discarded, so `word_id` is `None`. -/
def tschedStartup : TSched :=
  tafter_startup
    { wordIndex := 0, paused := false, pending := [], wordId := none,
      nextId := 0, currentPage := some 0 }

/-- A timer-faithful tracked state: playing after the first firing, with one
pending timer whose handle sits in `word_id`. -/
def tschedTracked : TSched :=
  { wordIndex := 1, paused := false, pending := [1], wordId := some 1,
    nextId := 2, currentPage := some 0 }

/-- Two cached page images (pages 0 and 1; page 0 least recently used). -/
def imgA : Img := { w := 100, h := 200, blank := false }

/-- Image of page 1 in the fixtures. -/
def imgB : Img := { w := 100, h := 201, blank := false }

/-- Image of page 2 in the fixtures. -/
def imgC : Img := { w := 100, h := 202, blank := false }

/-- A three-page document whose renderer always succeeds. -/
def envA : RenderEnv :=
  { numPages := 3, pageW := fun _ => 612, pageH := fun _ => 792,
    render := fun i => if i = 0 then some imgA else if i = 1 then some imgB else some imgC,
    dpi := 150 }

/-- A one-page document whose renderer always fails. -/
def envB : RenderEnv :=
  { numPages := 1, pageW := fun _ => 72, pageH := fun _ => 144,
    render := fun _ => none, dpi := 72 }

/-- A raw word used in the startup fixtures. -/
def rawX : RawWord := { text := "x", x0 := 1, top := 2, x1 := 3, bottom := 4 }

theorem display_paused (words : List Word) (s : Sched) :
    (display_next_word words s).paused = s.paused := by
  unfold display_next_word
  by_cases hp : s.paused
  · simp [hp]
  · rw [if_neg hp]
    cases words[s.wordIndex]? <;> rfl

theorem display_wordIndex (words : List Word) (s : Sched) :
    (display_next_word words s).wordIndex
      = if s.paused = false ∧ s.wordIndex < words.length
        then s.wordIndex + 1 else s.wordIndex := by
  unfold display_next_word
  by_cases hp : s.paused
  · simp [hp]
  · by_cases hi : s.wordIndex < words.length
    · rw [if_neg hp, List.getElem?_eq_getElem hi]
      simp [hp, hi]
    · rw [if_neg hp, List.getElem?_eq_none (by omega)]
      simp [hp, hi]

theorem display_timer_irrel (words : List Word) (s : Sched) (b : Bool) :
    display_next_word words { s with timer := b } = display_next_word words s := by
  unfold display_next_word
  by_cases hp : s.paused
  · simp [hp]
  · simp only [hp, if_false]

theorem pause_play_eq (words : List Word) (s : Sched) :
    pause_play words s =
      if s.paused then display_next_word words { s with paused := false }
      else { s with paused := true, timer := false } := by
  unfold pause_play
  by_cases hp : s.paused <;> simp [hp]

theorem tracked_pending_cases {n : Nat} {s : TSched} (h : tracked n s) :
    s.pending = [] ∨ ∃ hd, s.pending = [hd] ∧ s.wordId = some hd := by
  obtain ⟨h1, h2, -⟩ := h
  cases hp : s.pending with
  | nil => exact Or.inl rfl
  | cons a t =>
    cases t with
    | nil => exact Or.inr ⟨a, rfl, h2 a (by rw [hp]; exact List.mem_cons_self a [])⟩
    | cons b t2 =>
      rw [hp] at h1
      simp at h1

theorem tdisplay_from_empty (words : List Word) (s : TSched)
    (hp : s.pending = []) :
    tracked words.length (tdisplay words s)
  ∧ (tdisplay words s).pending.length
      = (if s.paused = false ∧ s.wordIndex < words.length then 1 else 0) := by
  unfold tdisplay
  by_cases hpa : s.paused
  · rw [if_pos hpa]
    refine ⟨⟨by simp [hp], by simp [hp], by simp [hp]⟩, ?_⟩
    rw [if_neg (fun hc => by rw [hpa] at hc; exact Bool.noConfusion hc.1)]
    simp [hp]
  · have hpa2 : s.paused = false := by simpa using hpa
    rw [if_neg hpa]
    by_cases hi : s.wordIndex < words.length
    · rw [List.getElem?_eq_getElem hi]
      unfold tafter
      refine ⟨⟨by simp [hp], by simp [hp], ?_⟩, by simp [hp, hpa2, hi]⟩
      intro h2 hh2
      refine ⟨hpa2, ?_⟩
      show s.wordIndex + 1 ≤ words.length
      omega
    · rw [List.getElem?_eq_none (by omega)]
      refine ⟨⟨by simp [hp], by simp [hp], by simp [hp]⟩, by simp [hp, hi]⟩

theorem tfire_spec (words : List Word) (s : TSched)
    (h : tracked words.length s) :
    tracked words.length (tfire words s)
  ∧ (tfire words s).pending.length
      = (if s.pending ≠ [] ∧ s.paused = false ∧ s.wordIndex < words.length
         then 1 else 0) := by
  rcases tracked_pending_cases h with hp | ⟨hd, hp, hw⟩
  · unfold tfire
    rw [hp]
    exact ⟨h, by simp [hp]⟩
  · unfold tfire
    rw [hp]
    have hres := tdisplay_from_empty words { s with pending := ([] : List Nat) } rfl
    refine ⟨hres.1, ?_⟩
    show (tdisplay words { s with pending := ([] : List Nat) }).pending.length = _
    have h2 := hres.2
    simp only at h2
    rw [h2]
    simp

theorem tcancel_tracked {n : Nat} {s : TSched} (h : tracked n s) :
    tcancel s = { s with pending := [] } := by
  unfold tcancel
  rcases tracked_pending_cases h with hp | ⟨hd, hp, hw⟩
  · cases hwid : s.wordId
    · conv_rhs => rw [← hp, ← hwid]
    · rw [hp]
      rfl
  · rw [hw, hp]
    simp [List.erase_cons_head]

theorem tpause_play_spec (words : List Word) (s : TSched)
    (h : tracked words.length s) :
    tracked words.length (tpause_play words s)
  ∧ (tpause_play words s).pending.length
      = (if s.paused = true ∧ s.wordIndex < words.length then 1 else 0) := by
  obtain ⟨wi, pa, pend, wid, ni, cp⟩ := s
  cases pa
  · -- pausing: the new state cancels the word_id timer and holds none
    have hres : tpause_play words ⟨wi, false, pend, wid, ni, cp⟩
        = { tcancel ⟨wi, false, pend, wid, ni, cp⟩ with paused := true, wordId := none } := by
      unfold tpause_play tcancel
      cases wid <;> rfl
    rw [hres, tcancel_tracked h]
    exact ⟨⟨by simp, by simp, by simp⟩, by simp⟩
  · -- unpausing: tracked forces no pending timer while paused
    have hp : pend = [] := by
      cases hpl : pend with
      | nil => rfl
      | cons a t =>
        exfalso
        have h3 := (h.2.2 a (by rw [hpl]; exact List.mem_cons_self a t)).1
        exact Bool.noConfusion h3
    subst hp
    have hres := tdisplay_from_empty words ⟨wi, false, [], wid, ni, cp⟩ rfl
    refine ⟨hres.1, ?_⟩
    show (tdisplay words ⟨wi, false, [], wid, ni, cp⟩).pending.length = _
    have h2 := hres.2
    simp only at h2
    rw [h2]
    simp

theorem tgoto_spec (words : List Word) (numPages : Nat) (step : Int)
    (s : TSched) (h : tracked words.length s) :
    tracked words.length (tgoto words numPages step s)
  ∧ (s.currentPage ≠ some (target_page numPages s.currentPage step) →
     ∀ found, find_first_word_on_page words
         (target_page numPages s.currentPage step) = some found →
       (tgoto words numPages step s).pending.length
         = (if s.paused = true then 0 else 1)) := by
  simp only [tgoto]
  by_cases hc : s.currentPage = some (target_page numPages s.currentPage step)
  · rw [if_pos hc]
    exact ⟨h, fun hne => absurd hc hne⟩
  · rw [if_neg hc]
    cases hf : find_first_word_on_page words
        (target_page numPages s.currentPage step) with
    | none =>
      refine ⟨h, ?_⟩
      intro _ found hfound
      exact Option.noConfusion hfound
    | some found =>
      rw [tcancel_tracked h]
      have hflt := find_first_word_on_page_lt_length hf
      cases hpa : s.paused with
      | true =>
        refine ⟨⟨by simp, by simp, by simp⟩, ?_⟩
        intro _ f2 hf2
        simp
      | false =>
        refine ⟨⟨by simp [tafter], ?_, ?_⟩, ?_⟩
        · intro h2 hh2
          have h3 : h2 = s.nextId := by simpa [tafter] using hh2
          subst h3
          rfl
        · intro h2 hh2
          exact ⟨rfl, Nat.le_of_lt hflt⟩
        · intro _ f2 hf2
          rfl

/-! ## Claim theorems: scheduler -/

/-- C1 (counterexample): the claimed invariant "a timer is pending iff the
scheduler is Playing and `word_index` has not reached `len(words)`" holds
before but not after `display_next_word` fires on the last word of a one-word
document: the code increments `word_index` to `len(words)` and still schedules
one more timer, which only clears itself at its next firing. -/
theorem C1_counterexample :
    pending_iff_playing_not_end wordsOne.length schedPlaying0
  ∧ (display_next_word wordsOne schedPlaying0).paused = false
  ∧ (display_next_word wordsOne schedPlaying0).wordIndex = wordsOne.length
  ∧ (display_next_word wordsOne schedPlaying0).timer = true
  ∧ ¬ pending_iff_playing_not_end wordsOne.length
      (display_next_word wordsOne schedPlaying0) := by
  refine ⟨by decide, by decide, by decide, by decide, by decide⟩

/-- C1 (amended): provided every pending advancement timer's handle is the
one stored in `word_id` (`tracked`, true of every reachable state once the
startup timer has fired or been cancelled-by-firing), the timer-faithful
operations preserve `tracked` — at most one timer pending, only while
Playing with `word_index ≤ len(words)` — and exactly: a timer firing leaves
one pending timer iff one was pending and the scheduler was playing with
index below `len(words)` (so after the last word is displayed the index
equals `len(words)` with a timer still pending, cleared at its next firing);
`pause_play` leaves one pending iff it unpaused with index below
`len(words)`; and `goto_next_page`, when it jumps, leaves exactly one
pending timer iff playing and none iff paused.  The `tracked` proviso is
necessary: the startup `root.after(100, display_next_word)` discards its
handle, so within the startup window pausing leaves that timer pending while
Paused, and pausing then unpausing leaves two timers pending. -/
theorem C1_timer_invariant (words : List Word) (numPages : Nat) (step : Int)
    (s : TSched) (h : tracked words.length s) :
    (tracked words.length (tfire words s)
      ∧ (tfire words s).pending.length
          = (if s.pending ≠ [] ∧ s.paused = false ∧ s.wordIndex < words.length
             then 1 else 0))
  ∧ (tracked words.length (tpause_play words s)
      ∧ (tpause_play words s).pending.length
          = (if s.paused = true ∧ s.wordIndex < words.length then 1 else 0))
  ∧ (tracked words.length (tgoto words numPages step s)
      ∧ (s.currentPage ≠ some (target_page numPages s.currentPage step) →
         ∀ found, find_first_word_on_page words
             (target_page numPages s.currentPage step) = some found →
           (tgoto words numPages step s).pending.length
             = (if s.paused = true then 0 else 1)))
  ∧ ((tpause_play wordsOne tschedStartup).paused = true
      ∧ (tpause_play wordsOne tschedStartup).pending = [0]
      ∧ (tpause_play wordsOne
          (tpause_play wordsOne tschedStartup)).pending.length = 2) :=
  ⟨tfire_spec words s h, tpause_play_spec words s h,
   tgoto_spec words numPages step s h, by decide, by decide, by decide⟩

/-- C1 (witness): the tracked invariant holds of the playing state after the
first firing of the one-word document, and `pause_play` preserves it there,
leaving no pending timer. -/
theorem C1_timer_invariant_witness :
    tracked wordsOne.length tschedTracked
  ∧ tracked wordsOne.length (tpause_play wordsOne tschedTracked)
  ∧ (tpause_play wordsOne tschedTracked).pending.length
      = (if tschedTracked.paused = true
          ∧ tschedTracked.wordIndex < wordsOne.length then 1 else 0) :=
  ⟨by decide,
   (C1_timer_invariant wordsOne 3 1 tschedTracked (by decide)).2.1.1,
   (C1_timer_invariant wordsOne 3 1 tschedTracked (by decide)).2.1.2⟩

/-- C4 (counterexample): pressing space twice in the playing start state of a
one-word document does not restore `word_index`: unpausing calls
`display_next_word` directly, which advances the index from 0 to 1. -/
theorem C4_counterexample :
    schedPlaying0.wordIndex = 0
  ∧ (pause_play wordsOne (pause_play wordsOne schedPlaying0)).paused
      = schedPlaying0.paused
  ∧ (pause_play wordsOne (pause_play wordsOne schedPlaying0)).wordIndex = 1 := by
  refine ⟨by decide, by decide, by decide⟩

/-- C4 (amended): calling `pause_play` twice restores the original `paused`
value, but advances `word_index` by one exactly when it was below
`len(words)` (unpausing immediately displays the current word and advances);
from a playing state the double toggle is extensionally the single
`display_next_word` firing it cancelled, so no word is skipped or replayed. -/
theorem C4_double_toggle (words : List Word) (s : Sched) :
    (pause_play words (pause_play words s)).paused = s.paused
  ∧ (pause_play words (pause_play words s)).wordIndex
      = (if s.wordIndex < words.length then s.wordIndex + 1 else s.wordIndex)
  ∧ (s.paused = false →
      pause_play words (pause_play words s) = display_next_word words s) := by
  obtain ⟨wi, p, t, cp⟩ := s
  cases p
  · have h2 : pause_play words (pause_play words ⟨wi, false, t, cp⟩)
        = display_next_word words ⟨wi, false, t, cp⟩ := by
      show display_next_word words ⟨wi, false, false, cp⟩
          = display_next_word words ⟨wi, false, t, cp⟩
      exact display_timer_irrel words ⟨wi, false, t, cp⟩ false
    refine ⟨by rw [h2, display_paused], ?_, fun _ => h2⟩
    rw [h2, display_wordIndex]
    by_cases hi : wi < words.length
    · rw [if_pos ⟨rfl, hi⟩, if_pos hi]
    · rw [if_neg (fun hcon => hi hcon.2), if_neg hi]
  · have h1 : pause_play words ⟨wi, true, t, cp⟩
        = display_next_word words ⟨wi, false, t, cp⟩ := rfl
    have hdp : (display_next_word words ⟨wi, false, t, cp⟩).paused = false :=
      display_paused words ⟨wi, false, t, cp⟩
    have h2 : pause_play words (display_next_word words ⟨wi, false, t, cp⟩)
        = { (display_next_word words ⟨wi, false, t, cp⟩) with
            paused := true, timer := false } := by
      rw [pause_play_eq, if_neg (by rw [hdp]; exact Bool.false_ne_true)]
    refine ⟨by rw [h1, h2], ?_, fun hcon => Bool.noConfusion hcon⟩
    rw [h1, h2]
    show (display_next_word words ⟨wi, false, t, cp⟩).wordIndex = _
    rw [display_wordIndex]
    by_cases hi : wi < words.length
    · rw [if_pos ⟨rfl, hi⟩, if_pos hi]
    · rw [if_neg (fun hcon => hi hcon.2), if_neg hi]

/-- C4 (witness): in a paused terminal state of the one-word document the
double toggle restores `paused` and leaves the index at `len(words)`. -/
theorem C4_double_toggle_witness :
    (pause_play wordsOne (pause_play wordsOne schedPausedEnd)).paused
      = schedPausedEnd.paused
  ∧ (pause_play wordsOne (pause_play wordsOne schedPausedEnd)).wordIndex
      = (if schedPausedEnd.wordIndex < wordsOne.length
         then schedPausedEnd.wordIndex + 1 else schedPausedEnd.wordIndex) :=
  ⟨(C4_double_toggle wordsOne schedPausedEnd).1,
   (C4_double_toggle wordsOne schedPausedEnd).2.1⟩

/-- C7 (confirmed): `goto_next_page` with a computed target page on which no
word of the loaded range lies returns with the whole scheduler state —
`word_index`, `paused`, the pending timer, and the current page — unchanged,
and raises no error (it is a total function). -/
theorem C7_jump_to_missing_page_noop (words : List Word) (numPages : Nat)
    (step : Int) (s : Sched)
    (h : ∀ w ∈ words, w.page ≠ target_page numPages s.currentPage step) :
    goto_next_page words numPages step s = s := by
  simp only [goto_next_page]
  by_cases hc : s.currentPage = some (target_page numPages s.currentPage step)
  · rw [if_pos hc]
  · rw [if_neg hc, find_first_word_on_page_eq_none h]

/-- C7 (witness): jumping forward from page 0 of a one-page word list inside
a five-page document targets page 1, which holds no word; the state is
unchanged. -/
theorem C7_jump_to_missing_page_noop_witness :
    (∀ w ∈ wordsOne, w.page ≠ target_page 5 schedPausedEnd.currentPage 1)
  ∧ goto_next_page wordsOne 5 1 schedPausedEnd = schedPausedEnd :=
  ⟨by decide, C7_jump_to_missing_page_noop wordsOne 5 1 schedPausedEnd (by decide)⟩

/-- C9 (confirmed): while paused with `word_index ≤ len(words)`, both step
operations leave `word_index` within `[0, len(words) - 1]`; in particular at
the terminal index `len(words)` (reached after the last word was displayed),
`move_right` sets the index to `len(words) - 1`, i.e. it moves backwards
rather than staying put. -/
theorem C9_step_clamps (words : List Word) (s : Sched)
    (hn : 1 ≤ words.length) (hp : s.paused = true)
    (hi : s.wordIndex ≤ words.length) :
    (move_left words s).wordIndex ≤ words.length - 1
  ∧ (move_right words s).wordIndex ≤ words.length - 1
  ∧ (s.wordIndex = words.length →
      (move_right words s).wordIndex = words.length - 1) := by
  have hl : (move_left words s).wordIndex = s.wordIndex - 1 := by
    unfold move_left
    rw [if_neg (by simp [hp]), update_label_wordIndex]
  have hr : (move_right words s).wordIndex
      = min (s.wordIndex + 1) (words.length - 1) := by
    unfold move_right
    rw [if_neg (by simp [hp]), update_label_wordIndex]
  refine ⟨by rw [hl]; omega, by rw [hr]; omega, fun he => by rw [hr]; omega⟩

/-- C9 (witness): paused at the terminal index 1 of the one-word document,
`move_right` moves the index back to 0. -/
theorem C9_step_clamps_witness :
    1 ≤ wordsOne.length ∧ schedPausedEnd.paused = true
  ∧ schedPausedEnd.wordIndex ≤ wordsOne.length
  ∧ (schedPausedEnd.wordIndex = wordsOne.length →
      (move_right wordsOne schedPausedEnd).wordIndex = wordsOne.length - 1) :=
  ⟨by decide, by decide, by decide,
   (C9_step_clamps wordsOne schedPausedEnd (by decide) (by decide) (by decide)).2.2⟩

/-! ## Claim theorems: cache -/

/-- C2 (counterexample): with a capacity-2 cache holding pages 0 (least
recently used) and 1, `render_page` for page 0 is a cache hit that leaves the
recency order unchanged (the hit path uses a plain `pages_cache.get`), so
rendering the new distinct page 2 next evicts the just-accessed page 0. -/
theorem C2_counterexample :
    cache_get [(0, imgA), (1, imgB)] 0 = some imgA
  ∧ (render_page envA 2 [(0, imgA), (1, imgB)] 0).1 = [(0, imgA), (1, imgB)]
  ∧ cache_get
      (render_page envA 2 (render_page envA 2 [(0, imgA), (1, imgB)] 0).1 2).1 0
      = none := by
  refine ⟨by decide, by decide, by decide⟩

/-- C2 (amended): a cache lookup hit (`pages_cache.get` in `render_page`) does
not update recency; it is `cache_put` with an already-present key that moves
the entry to most-recently-used (keeping its stored value).  Hence, for a
duplicate-free cache of at most `cap ≥ 2` entries, `cache_put` on an existing
page followed by inserting one new distinct page never evicts the just-put
entry. -/
theorem C2_put_existing_then_insert {α : Type} (cap : Nat) (c : Cache α)
    (k : Nat) (v vnew : α) (q : Nat) (w : α)
    (hcap : 2 ≤ cap) (hnd : (keys c).Nodup) (hmem : (k, v) ∈ c)
    (_hlen : c.length ≤ cap) (hq : q ∉ keys c) :
    cache_get (cache_put cap (cache_put cap c k vnew) q w) k = some v := by
  have hkk : k ∈ keys c := List.mem_map.mpr ⟨(k, v), hmem, rfl⟩
  have h1 : cache_put cap c k vnew = c.filter (fun x => !(x.1 == k)) ++ [(k, v)] := by
    rw [cache_put, if_pos (List.any_eq_true.mpr ⟨(k, v), hmem, by simp⟩),
      move_to_end_eq hnd hmem]
  set A := c.filter (fun x => !(x.1 == k)) with hA
  have hAk : ∀ e ∈ A, e.1 ≠ k := by
    intro e he
    have h2 := (List.mem_filter.mp he).2
    simpa using h2
  have hAlen : A.length = c.length - 1 := length_filter_ne_key hnd hmem
  have hclen : 1 ≤ c.length := List.length_pos.mpr (List.ne_nil_of_mem hmem)
  have hqA : ∀ e ∈ A ++ [(k, v)], (e.1 == q) = false := by
    intro e he
    rcases List.mem_append.mp he with he | he
    · have h2 : e.1 ∈ keys (c.filter (fun x => !(x.1 == k))) :=
        List.mem_map.mpr ⟨e, by rw [← hA]; exact he, rfl⟩
      have h3 := mem_keys_of_mem_filter h2
      have h4 : e.1 ≠ q := fun hh => hq (hh ▸ h3)
      simpa using h4
    · have he2 : e = (k, v) := by simpa using he
      have h4 : e.1 ≠ q := by
        rw [he2]
        intro hh
        exact hq (hh ▸ hkk)
      simpa using h4
  have h4 : cache_put cap (A ++ [(k, v)]) q w
      = evictOldest cap ((A ++ [(k, v)]) ++ [(q, w)]) := by
    have hany : (A ++ [(k, v)]).any (fun e => e.1 == q) = false :=
      List.any_eq_false.mpr (fun e he => by simp [hqA e he])
    rw [cache_put, if_neg (by rw [hany]; exact Bool.false_ne_true)]
  rw [h1, h4, evictOldest_eq_drop]
  have hlen2 : ((A ++ [(k, v)]) ++ [(q, w)]).length = c.length + 1 := by
    simp only [List.length_append, List.length_cons, List.length_nil, hAlen]
    omega
  rw [hlen2]
  have hdA : c.length + 1 - cap ≤ A.length := by rw [hAlen]; omega
  have h5 : ((A ++ [(k, v)]) ++ [(q, w)]).drop (c.length + 1 - cap)
      = A.drop (c.length + 1 - cap) ++ ((k, v) :: [(q, w)]) := by
    rw [List.append_assoc, List.drop_append_eq_append_drop]
    have h6 : c.length + 1 - cap - A.length = 0 := by omega
    rw [h6, List.drop_zero]
    rfl
  rw [h5]
  exact cache_get_append_cons (A.drop (c.length + 1 - cap)) k v [(q, w)]
    (fun e he => hAk e (List.mem_of_mem_drop he))

/-- C2 (witness): capacity 2, cache `[(0,10),(1,11)]` with page 0 least
recently used; `cache_put` on existing page 0 then inserting fresh page 2
keeps page 0 with its original value. -/
theorem C2_put_existing_then_insert_witness :
    (2 ≤ 2 ∧ (keys [(0, 10), (1, 11)]).Nodup ∧ ((0 : Nat), (10 : Nat)) ∈
        ([(0, 10), (1, 11)] : Cache Nat)
      ∧ ([(0, 10), (1, 11)] : Cache Nat).length ≤ 2
      ∧ (2 : Nat) ∉ keys ([(0, 10), (1, 11)] : Cache Nat))
  ∧ cache_get (cache_put 2 (cache_put 2 [(0, 10), (1, 11)] 0 99) 2 12) 0
      = some 10 :=
  ⟨⟨by decide, by decide, by decide, by decide, by decide⟩,
   C2_put_existing_then_insert 2 [(0, 10), (1, 11)] 0 10 99 2 12
     (by decide) (by decide) (by decide) (by decide) (by decide)⟩

/-- C5 (confirmed): inserting `cap + k` distinct pages (`cap ≥ 1`, `k ≥ 1`)
into the empty cache through `cache_put` retains exactly the `cap` most
recently inserted pages in access order (ties broken by insertion order,
which is access order here since every insert is fresh), the final size is
exactly `cap`, and the size never exceeds `cap` after any insert completes. -/
theorem C5_lru_insertion {α : Type} (cap k : Nat) (ps : List Nat) (v : Nat → α)
    (hcap : 1 ≤ cap) (hk : 1 ≤ k) (hnd : ps.Nodup) (hlen : ps.length = cap + k) :
    keys (cache_put_all cap v ps) = ps.drop k
  ∧ (cache_put_all cap v ps).length = cap
  ∧ ∀ i : Nat, (cache_put_all cap v (ps.take i)).length ≤ cap := by
  have hmain := cache_put_all_eq cap v ps hcap hnd
  have hkeys : keys (cache_put_all cap v ps) = ps.drop (ps.length - cap) := by
    rw [hmain, keys, List.map_map]
    exact List.map_id _
  have hdk : ps.length - cap = k := by omega
  refine ⟨by rw [hkeys, hdk], ?_, ?_⟩
  · rw [hmain]
    simp only [List.length_map, List.length_drop]
    omega
  · intro i
    have hnd2 : (ps.take i).Nodup := hnd.sublist (List.take_sublist i ps)
    rw [cache_put_all_eq cap v (ps.take i) hcap hnd2]
    simp only [List.length_map, List.length_drop]
    omega

/-- C5 (witness): capacity 2, inserting the three distinct pages 3, 4, 5
retains exactly pages 4 and 5. -/
theorem C5_lru_insertion_witness :
    (1 ≤ 2 ∧ 1 ≤ 1 ∧ ([3, 4, 5] : List Nat).Nodup
      ∧ ([3, 4, 5] : List Nat).length = 2 + 1)
  ∧ keys (cache_put_all 2 (fun p => p) [3, 4, 5]) = ([3, 4, 5] : List Nat).drop 1 :=
  ⟨⟨by decide, by decide, by decide, by decide⟩,
   (C5_lru_insertion 2 1 [3, 4, 5] (fun p => p)
     (by decide) (by decide) (by decide) (by decide)).1⟩

/-- C3 (counterexample): with a renderer that always fails, the first
`render_page` for page 0 invokes the rasterizer (and falls back to the blank
placeholder), but a later `render_page` for the same page does not attempt
rendering again — the placeholder was cached, contradicting the claim that a
later get retries. -/
theorem C3_counterexample :
    envB.render 0 = none
  ∧ (render_page envB 16 [] 0).2.2 = true
  ∧ (render_page envB 16 (render_page envB 16 [] 0).1 0).2.2 = false := by
  refine ⟨by decide, by decide, by decide⟩

/-- C3 (amended): when rendering page `p` fails on a cache miss, `render_page`
returns the deterministic blank placeholder sized from the page's nominal
dimensions at the configured resolution and inserts it into the cache like a
successful render; any later lookup that hits the cache (in particular the
cached placeholder) returns without invoking the rasterizer, and rendering is
re-attempted only once the entry is no longer cached (a miss always invokes
the rasterizer). -/
theorem C3_render_failure_placeholder (env : RenderEnv) (cap : Nat)
    (c : Cache Img) (p : Nat) (hp : p < env.numPages)
    (hmiss : cache_get c p = none) (hfail : env.render p = none) :
    render_page env cap c p
      = (cache_put cap c p (blankImage (env.pageW p) (env.pageH p) env.dpi),
         some (blankImage (env.pageW p) (env.pageH p) env.dpi), true)
  ∧ (∀ (c2 : Cache Img) (img : Img), cache_get c2 p = some img →
       render_page env cap c2 p = (c2, some img, false))
  ∧ (∀ c3 : Cache Img, cache_get c3 p = none →
       (render_page env cap c3 p).2.2 = true) := by
  have hnle : ¬ env.numPages ≤ p := by omega
  refine ⟨?_, ?_, ?_⟩
  · unfold render_page
    rw [if_neg hnle, hmiss, hfail]
  · intro c2 img hc2
    unfold render_page
    rw [if_neg hnle, hc2]
  · intro c3 hc3
    unfold render_page
    rw [if_neg hnle, hc3]
    cases env.render p <;> rfl

/-- C3 (witness): the failing one-page document at capacity 16 from the empty
cache: the placeholder is produced and cached. -/
theorem C3_render_failure_placeholder_witness :
    (0 < envB.numPages ∧ cache_get ([] : Cache Img) 0 = none
      ∧ envB.render 0 = none)
  ∧ render_page envB 16 [] 0
      = (cache_put 16 [] 0 (blankImage (envB.pageW 0) (envB.pageH 0) envB.dpi),
         some (blankImage (envB.pageW 0) (envB.pageH 0) envB.dpi), true) :=
  ⟨⟨by decide, by decide, by decide⟩,
   (C3_render_failure_placeholder envB 16 [] 0
     (by decide) (by decide) (by decide)).1⟩

theorem startup_ok_eq (extract : Nat → Option (List RawWord)) (total : Nat)
    (rs re : Int) :
    startup (Except.ok total) extract rs re
      = match startup_load extract total rs re with
        | Except.error _ => StartupResult.exited 1
        | Except.ok words =>
          if words.isEmpty then StartupResult.exited 1
          else StartupResult.running words := rfl

theorem load_pdf_index_error_indep (f g : Nat → Option (List RawWord))
    (total : Nat) (si ei : Int) (msg : String) :
    load_pdf_index f total si ei = Except.error msg
      ↔ load_pdf_index g total si ei = Except.error msg := by
  simp only [load_pdf_index]
  split_ifs <;> simp

/-! ## Claim theorems: startup -/

/-- C6 (counterexample): at the default 450 words per minute the code's delay
(`60000 // 450 = 133` ms) differs from the exact value `60000 / 450 = 133.3…`
ms that the claim states. -/
theorem C6_counterexample : (delay_ms 450 : ℚ) ≠ (60000 : ℚ) / 450 := by
  norm_num [delay_ms]

/-- C6 (amended): for every configured wordsPerMinute the per-token delay in
milliseconds is the floor of `60000 / wordsPerMinute` (Python integer
division), exact only when wordsPerMinute divides 60000. -/
theorem C6_delay_is_floor (wpm : Nat) :
    delay_ms wpm = Nat.floor ((60000 : ℚ) / (wpm : ℚ)) := by
  have h : Nat.floor (((60000 : Nat) : ℚ) / ((wpm : Nat) : ℚ)) = 60000 / wpm :=
    Nat.floor_div_nat 60000 wpm
  rw [delay_ms, ← h]
  norm_num

/-- C8 (confirmed): every 1-indexed page-range configuration with
`end_page < start_page` and `end_page ≥ 1` (not the `-1` sentinel) is
rejected by `load_pdf_index`'s validation with a configuration error for
every document size, and `main` exits with status 1 (the error path runs
before any page is rendered: the model's startup pipeline contains no call
into the rasterizer). -/
theorem C8_invalid_range_rejected (total_pages : Nat)
    (extract : Nat → Option (List RawWord)) (rs re : Int)
    (h1 : 1 ≤ re) (h2 : re < rs) :
    (∃ msg, startup_load extract total_pages rs re = Except.error msg)
  ∧ startup (Except.ok total_pages) extract rs re = StartupResult.exited 1 := by
  have h : ∃ msg, startup_load extract total_pages rs re = Except.error msg := by
    simp only [startup_load, normalize_pages, load_pdf_index]
    split_ifs <;> first | exact ⟨_, rfl⟩ | (exfalso; omega)
  refine ⟨h, ?_⟩
  obtain ⟨msg, hm⟩ := h
  rw [startup_ok_eq, hm]

/-- C8 (witness): the spec's scenario `start_page = 2, end_page = 1` on a
five-page document exits with status 1. -/
theorem C8_invalid_range_rejected_witness :
    ((1 : Int) ≤ 1 ∧ (1 : Int) < 2)
  ∧ startup (Except.ok 5) (fun _ => some [rawX]) 2 1 = StartupResult.exited 1 :=
  ⟨⟨by decide, by decide⟩,
   (C8_invalid_range_rejected 5 (fun _ => some [rawX]) 2 1
     (by decide) (by decide)).2⟩

/-- C10 (confirmed): a page whose word extraction raises contributes zero
tokens while the remaining pages are unaffected; `load_pdf_index` never fails
because of a failing page (its errors are exactly the range-validation
errors, independent of the extractor); and the startup aborts with exit
status 1 exactly when the document cannot be opened, the range validation
errors, or all pages together yield zero tokens. -/
theorem C10_page_failure_isolated (f : Nat → Option (List RawWord)) (j : Nat) :
    pageContrib (fun i => if i = j then none else f i) j = []
  ∧ (∀ i : Nat, i ≠ j →
      pageContrib (fun i2 => if i2 = j then none else f i2) i = pageContrib f i)
  ∧ (∀ (total : Nat) (si ei : Int) (wl : List Word),
      load_pdf_index f total si ei = Except.ok wl →
      ∃ w2, load_pdf_index (fun i => if i = j then none else f i) total si ei
        = Except.ok w2)
  ∧ (∀ (msg : String) (rs re : Int),
      startup (Except.error msg) (fun i => if i = j then none else f i) rs re
        = StartupResult.exited 1)
  ∧ (∀ (total : Nat) (rs re : Int),
      startup (Except.ok total) (fun i => if i = j then none else f i) rs re
          = StartupResult.exited 1
        ↔ (∃ msg, startup_load (fun i => if i = j then none else f i) total rs re
              = Except.error msg)
          ∨ startup_load (fun i => if i = j then none else f i) total rs re
              = Except.ok []) := by
  refine ⟨?_, ?_, ?_, ?_, ?_⟩
  · simp [pageContrib]
  · intro i hij
    simp [pageContrib, hij]
  · intro total si ei wl hok
    cases hck : load_pdf_index (fun i => if i = j then none else f i) total si ei with
    | ok w2 => exact ⟨w2, rfl⟩
    | error m =>
      rw [(load_pdf_index_error_indep (fun i => if i = j then none else f i) f
        total si ei m).mp hck] at hok
      simp at hok
  · intro msg rs re
    rfl
  · intro total rs re
    rw [startup_ok_eq]
    cases hsl : startup_load (fun i => if i = j then none else f i) total rs re with
    | error m =>
      constructor
      · intro _
        exact Or.inl ⟨m, rfl⟩
      · intro _
        rfl
    | ok wl =>
      show ((if wl.isEmpty then StartupResult.exited 1 else StartupResult.running wl)
          = StartupResult.exited 1) ↔ _
      by_cases he : wl.isEmpty = true
      · rw [if_pos he]
        constructor
        · intro _
          right
          rw [List.isEmpty_iff] at he
          rw [he]
        · intro _
          rfl
      · rw [if_neg he]
        constructor
        · intro hcon
          exact absurd hcon (by simp)
        · rintro (⟨m, hm⟩ | hnil)
          · cases hm
          · rw [List.isEmpty_iff.not] at he
            cases hnil
            exact absurd rfl he

/-- C10 (witness): with an extractor succeeding everywhere, making page 0
raise yields an empty contribution for page 0. -/
theorem C10_page_failure_isolated_witness :
    pageContrib (fun i => if i = 0 then none else (fun _ => some [rawX]) i) 0 = [] :=
  (C10_page_failure_isolated (fun _ => some [rawX]) 0).1

end PdfWordRunner
